import Mathlib

/-!
Verification of the recipe-API client (`recipe_api.py`).

The Python module is embedded shallowly:

* the filesystem is a list of existing paths (`List String`);
* HTTP is an environment function `String → Option (List Nat)` giving the
  response body (as bytes, each a `Nat`) or `none` on an HTTP error
  (`_http_get` turns `urllib.error.HTTPError` into `None`);
* the JSON cache file `cached.json` is an `Option` association list
  (`none` = file absent, `some c` = file present with parsed mapping `c`);
* `json.loads` plus the `hits`/`recipe` field extraction done by `search`
  is an environment function `List Nat → Option ApiResponse`, `none`
  meaning the uncaught exception raised on a malformed body;
* `str(n)` for a natural number is `nat_str`, a fueled decimal printer;
* `str.lower` is modelled on ASCII letters (`Char.toLower`) and
  `str.strip` on the ASCII whitespace characters.
-/

/-! ### Decimal printing (Python `str` on a non-negative int) -/

/-- Little-endian decimal digits of `n`, with explicit fuel.
With fuel at least `n` this is the full digit list (empty for `0`). -/
def dec_digits : Nat → Nat → List Nat
  | 0, _ => []
  | _ + 1, 0 => []
  | fuel + 1, n + 1 => ((n + 1) % 10) :: dec_digits fuel ((n + 1) / 10)

/-- Value of a little-endian decimal digit list. -/
def ofDecDigits : List Nat → Nat
  | [] => 0
  | d :: ds => d + 10 * ofDecDigits ds

/-- Python `str(n)` for a natural number: decimal representation. -/
def nat_str (n : Nat) : String :=
  if n = 0 then "0" else String.mk ((dec_digits n n).reverse.map Nat.digitChar)

/-! ### Filename allocator (`_gen_file_name`) -/

/-- `os.path.join(a, b)` for a relative sub-path `b`. -/
def os_path_join (a b : String) : String := a ++ "/" ++ b

/-- The candidate file name probed at counter value `f_num`:
`dir/name_<f_num>.jpg`. -/
def file_name_for (dir name : String) (f_num : Nat) : String :=
  os_path_join dir (name ++ "_" ++ nat_str f_num ++ ".jpg")

/-- The probing recursion of `_gen_file_name`, with explicit fuel.
When the fuel runs out the current candidate is returned; with fuel
`fs.length + 1` (as used by `gen_file_name`) this never happens. -/
def gen_file_name_fuel (fs : List String) (dir name : String) : Nat → Nat → String
  | 0, f_num => file_name_for dir name f_num
  | fuel + 1, f_num =>
    let file_name := file_name_for dir name f_num
    if file_name ∈ fs then gen_file_name_fuel fs dir name fuel (f_num + 1)
    else file_name

/-- `_gen_file_name(dir, name, f_num=1)`: probe `dir/name_1.jpg`,
`dir/name_2.jpg`, … until an unused path is found.  `fs` is the set of
existing paths (`os.path.exists`). -/
def gen_file_name (fs : List String) (dir name : String) (f_num : Nat := 1) : String :=
  gen_file_name_fuel fs dir name (fs.length + 1) f_num

/-! ### Query builder (`_construct_api_query`) -/

/-- UTF-8 bytes of one character. -/
def char_utf8 (c : Char) : List Nat :=
  let v := c.toNat
  if v < 128 then [v]
  else if v < 2048 then [192 + v / 64, 128 + v % 64]
  else if v < 65536 then [224 + v / 4096, 128 + v / 64 % 64, 128 + v % 64]
  else [240 + v / 262144, 128 + v / 4096 % 64, 128 + v / 64 % 64, 128 + v % 64]

/-- UTF-8 bytes of a string. -/
def str_utf8 (s : String) : List Nat := (s.data.map char_utf8).flatten

/-- Uppercase hexadecimal digit, as used by `urllib.parse.quote`. -/
def hex_digit (n : Nat) : Char := if n < 10 then Char.ofNat (48 + n) else Char.ofNat (55 + n)

/-- `%XX` escape of one byte. -/
def percent_encode_byte (b : Nat) : List Char := ['%', hex_digit (b / 16), hex_digit (b % 16)]

/-- The always-safe bytes of `urllib.parse.quote`: ASCII letters, digits,
and `_`, `.`, `-`, `~`. -/
def is_safe_byte (b : Nat) : Bool :=
  (65 ≤ b && b ≤ 90) || (97 ≤ b && b ≤ 122) || (48 ≤ b && b ≤ 57) ||
    b == 95 || b == 46 || b == 45 || b == 126

/-- `urllib.parse.quote_plus` with its default `safe=''`: spaces become
`+`, safe bytes stay, everything else is percent-encoded. -/
def quote_plus (s : String) : String :=
  String.mk (((str_utf8 s).map
    (fun b => if b == 32 then ['+']
      else if is_safe_byte b then [Char.ofNat b]
      else percent_encode_byte b)).flatten)

/-- Python `str.isspace` on the ASCII whitespace characters. -/
def py_is_space (c : Char) : Bool :=
  c == ' ' || c == '\t' || c == '\n' || c == '\r' || c.toNat == 11 || c.toNat == 12

/-- Python `str.strip()`: drop whitespace from both ends. -/
def py_strip (s : String) : String :=
  String.mk (((s.data.dropWhile py_is_space).reverse.dropWhile py_is_space).reverse)

/-- Python `str.lower()` (ASCII letters). -/
def py_lower (s : String) : String := String.mk (s.data.map Char.toLower)

/-- The helper `clean_string` of `_construct_api_query`:
`urllib.parse.quote_plus('"' + string.strip().lower() + '"')`. -/
def clean_string (s : String) : String :=
  quote_plus ("\"" ++ py_lower (py_strip s) ++ "\"")

/-- `self.uri`. -/
def uri : String := "https://api.edamam.com/search"

/-- `_construct_api_query(query_list, max_res)`: join the cleaned terms
with `+` and substitute into the fixed URL template. -/
def construct_api_query (app_id api_key : String) (query_list : List String)
    (max_res : Nat) : String :=
  let q_str := String.intercalate "+" (query_list.map clean_string)
  uri ++ "?q=" ++ q_str ++ "&app_id=" ++ app_id ++ "&app_key=" ++ api_key
    ++ "&from=0&to=" ++ nat_str max_res

/-- The Query Builder output as the spec words it (claim C4): the fixed
template with each term trimmed, lowercased, wrapped in double quotes,
percent-encoded with space as `+`, and the encoded terms joined by a
literal `+`. -/
def query_url_spec (app_id api_key : String) (terms : List String)
    (max_results : Nat) : String :=
  "https://api.edamam.com/search?q="
    ++ String.intercalate "+" (terms.map (fun t => quote_plus ("\"" ++ py_lower (py_strip t) ++ "\"")))
    ++ "&app_id=" ++ app_id ++ "&app_key=" ++ api_key ++ "&from=0&to=" ++ nat_str max_results

/-! ### Data model of the API response and of the returned records -/

/-- The nested `recipe` object of one hit (the fields `search` uses). -/
structure Recipe where
  image : String
  label : String
  source : String
  url : String
deriving DecidableEq

/-- One entry of the `hits` sequence. -/
structure Hit where
  recipe : Recipe
deriving DecidableEq

/-- The parsed JSON body of the search response. -/
structure ApiResponse where
  hits : List Hit
deriving DecidableEq

/-- One dictionary of the list returned by `search`. -/
structure RecipeRecord where
  name : String
  image : String
  source : String
  url : String
deriving DecidableEq

/-! ### Downloading (`_download_file`) and the hit loop of `search` -/

/-- Mutable world threaded through downloads: the existing paths and the
log of image URLs passed to `_http_get` by `_download_file`. -/
structure DlState where
  fs : List String
  downloads : List String
deriving DecidableEq

/-- Result of `_download_file`: the new world and the saved path
(`none` when the function returns `None`). -/
structure DlOut where
  st : DlState
  path : Option String
deriving DecidableEq

/-- `self.default_img_path`. -/
def default_img_path : String := "default_img.jpg"

/-- `os.makedirs(dir)` guarded by `os.path.exists(dir)`. -/
def mkdirs (fs : List String) (dir : String) : List String :=
  if dir ∈ fs then fs else fs ++ [dir]

/-- `_download_file(url, name, dir="download")`: create the directory,
fetch the URL, and on a non-empty body save it under the next free
`dir/name_N.jpg`; otherwise return `None`. -/
def download_file (http : String → Option (List Nat)) (st : DlState) (url name : String)
    (dir : String := "download") : DlOut :=
  let fs := mkdirs st.fs dir
  let data := http url
  let downloads := st.downloads ++ [url]
  match data with
  | none => ⟨⟨fs, downloads⟩, none⟩
  | some d =>
    if d.length ≠ 0 then
      let file_path := gen_file_name fs dir name
      ⟨⟨fs ++ [file_path], downloads⟩, some file_path⟩
    else ⟨⟨fs, downloads⟩, none⟩

/-- Outcome of resolving one hit's image inside the loop of `search`. -/
structure StepOut where
  dl_file : String
  cache : List (String × String)
  st : DlState
deriving DecidableEq

/-- The body of the `for result in dict["hits"]` loop that picks
`dl_file`: use the cached path, otherwise `_download_file(img_url, "img")`,
falling back to `default_img_path` and caching only successes. -/
def resolve_image (http : String → Option (List Nat)) (st : DlState)
    (cache : List (String × String)) (img_url : String) : StepOut :=
  match List.lookup img_url cache with
  | some dl_file => ⟨dl_file, cache, st⟩
  | none =>
    let dl := download_file http st img_url "img"
    match dl.path with
    | none => ⟨default_img_path, cache, dl.st⟩
    | some p => ⟨p, cache ++ [(img_url, p)], dl.st⟩

/-- Result of the whole hit loop. -/
structure HitsResult where
  records : List RecipeRecord
  cache : List (String × String)
  st : DlState
deriving DecidableEq

/-- The `for result in dict["hits"]` loop of `search`: one
`RecipeRecord` per hit, in order, threading the cache and the world. -/
def search_hits (http : String → Option (List Nat)) :
    DlState → List (String × String) → List Hit → HitsResult
  | st, cache, [] => ⟨[], cache, st⟩
  | st, cache, result :: rest =>
    let so := resolve_image http st cache result.recipe.image
    let out := search_hits http so.st so.cache rest
    ⟨⟨result.recipe.label, so.dl_file, result.recipe.source, result.recipe.url⟩ :: out.records,
      out.cache, out.st⟩

/-- Observable outcome of `search`: the returned list, the final
filesystem, the contents of `cached.json` and the image-download log. -/
structure SearchOut where
  records : List RecipeRecord
  fs : List String
  cacheFile : Option (List (String × String))
  downloads : List String
deriving DecidableEq

/-- `search(query_list, max_results=3)`.  The outer `Option` is `none`
exactly when the run raises (malformed body / missing JSON fields,
modelled by `parse` returning `none`); a transport failure or empty body
on the search request instead returns the empty list with the world
untouched. -/
def search (http : String → Option (List Nat)) (parse : List Nat → Option ApiResponse)
    (app_id api_key : String) (fs0 : List String)
    (cacheFile0 : Option (List (String × String)))
    (query_list : List String) (max_results : Nat := 3) : Option SearchOut :=
  match http (construct_api_query app_id api_key query_list max_results) with
  | none => some ⟨[], fs0, cacheFile0, []⟩
  | some data =>
    if data.length = 0 then some ⟨[], fs0, cacheFile0, []⟩
    else
      match parse data with
      | none => none
      | some resp =>
        let r := search_hits http ⟨fs0, []⟩ (cacheFile0.getD []) resp.hits
        some ⟨r.records, r.st.fs, some r.cache, r.st.downloads⟩

/-! ### Concrete test environments (used by witnesses) -/

/-- A hit whose image URL downloads successfully in `http_test`. -/
def hit1 : Hit := ⟨⟨"http://x/1.jpg", "Apple pie", "Chef", "http://r/1"⟩⟩

/-- A hit whose image URL fails to download in `http_test`. -/
def hit2 : Hit := ⟨⟨"http://x/2.jpg", "Beet soup", "Cook", "http://r/2"⟩⟩

/-- The query URL the test client sends. -/
def search_url : String := construct_api_query "id" "key" [] 3

/-- Test HTTP world: the search URL answers with body `[1]`, the first
image URL with a two-byte body, everything else fails. -/
def http_test : String → Option (List Nat) := fun u =>
  if u = search_url then some [1]
  else if u = "http://x/1.jpg" then some [7, 7]
  else none

/-- Test parser: body `[1]` parses to the given hits. -/
def parse_for (hits : List Hit) : List Nat → Option ApiResponse := fun d =>
  if d = [1] then some ⟨hits⟩ else none

/-! ## Theorems -/

/-! ### Decimal printing -/

theorem ofDecDigits_dec_digits : ∀ (fuel n : Nat), n ≤ fuel →
    ofDecDigits (dec_digits fuel n) = n := by
  intro fuel
  induction fuel with
  | zero =>
    intro n hn
    have h0 : n = 0 := Nat.le_zero.mp hn
    subst h0; rfl
  | succ f ih =>
    intro n hn
    cases n with
    | zero => rfl
    | succ m =>
      have hlt : (m + 1) / 10 < m + 1 := Nat.div_lt_self (Nat.succ_pos m) (by norm_num)
      have hdiv : (m + 1) / 10 ≤ f :=
        Nat.lt_succ_iff.mp (Nat.lt_of_lt_of_le hlt hn)
      simp only [dec_digits, ofDecDigits, ih _ hdiv]
      exact Nat.mod_add_div (m + 1) 10

theorem dec_digits_lt_ten : ∀ (fuel n d : Nat), d ∈ dec_digits fuel n → d < 10 := by
  intro fuel
  induction fuel with
  | zero => intro n d hd; simp [dec_digits] at hd
  | succ f ih =>
    intro n d hd
    cases n with
    | zero => simp [dec_digits] at hd
    | succ m =>
      simp only [dec_digits, List.mem_cons] at hd
      rcases hd with h | h
      · subst h; exact Nat.mod_lt _ (by norm_num)
      · exact ih _ _ h

theorem digitChar_inj : ∀ d₁, d₁ < 10 → ∀ d₂, d₂ < 10 →
    Nat.digitChar d₁ = Nat.digitChar d₂ → d₁ = d₂ := by decide

theorem map_digitChar_inj : ∀ (l₁ l₂ : List Nat), (∀ d ∈ l₁, d < 10) →
    (∀ d ∈ l₂, d < 10) → l₁.map Nat.digitChar = l₂.map Nat.digitChar → l₁ = l₂ := by
  intro l₁
  induction l₁ with
  | nil =>
    intro l₂ _ _ h
    cases l₂ with
    | nil => rfl
    | cons b bs => simp at h
  | cons a as ih =>
    intro l₂ h₁ h₂ h
    cases l₂ with
    | nil => simp at h
    | cons b bs =>
      simp only [List.map_cons, List.cons.injEq] at h
      have ha : a = b := digitChar_inj a (h₁ a (List.mem_cons_self a as)) b
        (h₂ b (List.mem_cons_self b bs)) h.1
      have hs : as = bs := ih bs (fun d hd => h₁ d (List.mem_cons_of_mem a hd))
        (fun d hd => h₂ d (List.mem_cons_of_mem b hd)) h.2
      rw [ha, hs]

theorem nat_str_inj : ∀ (a b : Nat), nat_str a = nat_str b → a = b := by
  have key : ∀ (a b : Nat), a ≠ 0 → b ≠ 0 → nat_str a = nat_str b → a = b := by
    intro a b ha hb h
    unfold nat_str at h
    rw [if_neg ha, if_neg hb] at h
    have hmap : (dec_digits a a).reverse.map Nat.digitChar
        = (dec_digits b b).reverse.map Nat.digitChar := congrArg String.data h
    have hrev : (dec_digits a a).reverse = (dec_digits b b).reverse :=
      map_digitChar_inj _ _
        (fun d hd => dec_digits_lt_ten a a d (List.mem_reverse.mp hd))
        (fun d hd => dec_digits_lt_ten b b d (List.mem_reverse.mp hd)) hmap
    have hdig : dec_digits a a = dec_digits b b := List.reverse_inj.mp hrev
    calc a = ofDecDigits (dec_digits a a) := (ofDecDigits_dec_digits a a le_rfl).symm
      _ = ofDecDigits (dec_digits b b) := by rw [hdig]
      _ = b := ofDecDigits_dec_digits b b le_rfl
  have zero_case : ∀ (b : Nat), b ≠ 0 → nat_str 0 = nat_str b → False := by
    intro b hb h
    unfold nat_str at h
    rw [if_pos rfl, if_neg hb] at h
    have h0 : ([0] : List Nat).map Nat.digitChar = (dec_digits b b).reverse.map Nat.digitChar := by
      have e : ([0] : List Nat).map Nat.digitChar = ("0" : String).data := by decide
      rw [e]
      exact congrArg String.data h
    have : ([0] : List Nat) = (dec_digits b b).reverse :=
      map_digitChar_inj _ _ (by decide)
        (fun d hd => dec_digits_lt_ten b b d (List.mem_reverse.mp hd)) h0
    have hdig : dec_digits b b = [0] := by
      have := congrArg List.reverse this
      simpa using this.symm
    have hb0 : b = 0 := by
      have := ofDecDigits_dec_digits b b le_rfl
      rw [hdig] at this
      simpa [ofDecDigits] using this.symm
    exact hb hb0
  intro a b h
  by_cases ha : a = 0
  · by_cases hb : b = 0
    · rw [ha, hb]
    · exact absurd (ha ▸ h) (fun hh => zero_case b hb hh)
  · by_cases hb : b = 0
    · exact absurd (hb ▸ h.symm) (fun hh => zero_case a ha hh)
    · exact key a b ha hb h

/-! ### Strings: append cancellation -/

theorem string_append_left_cancel {s t u : String} (h : s ++ t = s ++ u) : t = u := by
  have hd : (s ++ t).data = (s ++ u).data := by rw [h]
  simp only [String.data_append] at hd
  exact String.ext (List.append_cancel_left hd)

theorem string_append_right_cancel {s t u : String} (h : t ++ s = u ++ s) : t = u := by
  have hd : (t ++ s).data = (u ++ s).data := by rw [h]
  simp only [String.data_append] at hd
  exact String.ext (List.append_cancel_right hd)

theorem file_name_for_inj (dir name : String) {i j : Nat}
    (h : file_name_for dir name i = file_name_for dir name j) : i = j := by
  unfold file_name_for os_path_join at h
  have h₁ := string_append_left_cancel h
  have h₂ := string_append_right_cancel h₁
  have h₃ := string_append_left_cancel h₂
  exact nat_str_inj i j h₃

/-! ### Filename allocator -/

theorem gen_file_name_fuel_spec (fs : List String) (dir name : String) :
    ∀ (fuel f_num : Nat), (∃ j, j < fuel ∧ file_name_for dir name (f_num + j) ∉ fs) →
    ∃ j, j < fuel ∧ gen_file_name_fuel fs dir name fuel f_num = file_name_for dir name (f_num + j) ∧
      file_name_for dir name (f_num + j) ∉ fs ∧
      ∀ i, i < j → file_name_for dir name (f_num + i) ∈ fs := by
  intro fuel
  induction fuel with
  | zero =>
    intro f_num h
    rcases h with ⟨j, hj, _⟩
    exact absurd hj (Nat.not_lt_zero j)
  | succ f ih =>
    intro f_num h
    by_cases hmem : file_name_for dir name f_num ∈ fs
    · rcases h with ⟨j, hj, hfree⟩
      have hj0 : j ≠ 0 := by
        intro h0
        rw [h0, Nat.add_zero] at hfree
        exact hfree hmem
      obtain ⟨j', rfl⟩ : ∃ j', j = j' + 1 :=
        ⟨j - 1, (Nat.succ_pred_eq_of_pos (Nat.pos_of_ne_zero hj0)).symm⟩
      have hstep : ∃ j, j < f ∧ file_name_for dir name (f_num + 1 + j) ∉ fs := by
        refine ⟨j', Nat.lt_of_succ_lt_succ hj, ?_⟩
        have : f_num + 1 + j' = f_num + (j' + 1) := by omega
        rw [this]; exact hfree
      obtain ⟨k, hk, heq, hfreek, hall⟩ := ih (f_num + 1) hstep
      refine ⟨k + 1, Nat.succ_lt_succ hk, ?_, ?_, ?_⟩
      · simp only [gen_file_name_fuel, if_pos hmem]
        rw [heq]
        congr 1
        omega
      · have : f_num + (k + 1) = f_num + 1 + k := by omega
        rw [this]; exact hfreek
      · intro i hi
        cases i with
        | zero => simpa using hmem
        | succ i' =>
          have : f_num + (i' + 1) = f_num + 1 + i' := by omega
          rw [this]
          exact hall i' (Nat.lt_of_succ_lt_succ hi)
    · refine ⟨0, Nat.succ_pos f, ?_, by simpa using hmem, by omega⟩
      simp only [gen_file_name_fuel, if_neg hmem, Nat.add_zero]

theorem exists_free_probe (fs : List String) (dir name : String) :
    ∃ j, j < fs.length + 1 ∧ file_name_for dir name (1 + j) ∉ fs := by
  by_contra hall
  push_neg at hall
  have hsub : Finset.image (fun j => file_name_for dir name (1 + j))
      (Finset.range (fs.length + 1)) ⊆ fs.toFinset := by
    intro s hs
    simp only [Finset.mem_image, Finset.mem_range] at hs
    rcases hs with ⟨j, hj, rfl⟩
    exact List.mem_toFinset.mpr (hall j hj)
  have hinj : Function.Injective (fun j => file_name_for dir name (1 + j)) := by
    intro i j hij
    have := file_name_for_inj dir name hij
    omega
  have hcard : (Finset.image (fun j => file_name_for dir name (1 + j))
      (Finset.range (fs.length + 1))).card = fs.length + 1 := by
    rw [Finset.card_image_of_injective _ hinj, Finset.card_range]
  have hle : fs.length + 1 ≤ fs.toFinset.card := by
    rw [← hcard]; exact Finset.card_le_card hsub
  have := List.toFinset_card_le fs
  omega

/-- C3: for every directory and base name, the Filename Allocator returns
`dir/name_N.jpg` for the least `N ≥ 1` whose path does not exist, and in
particular never returns a path that currently exists. -/
theorem c3_gen_file_name_least_unused (fs : List String) (dir name : String) :
    ∃ N, 1 ≤ N ∧ gen_file_name fs dir name = file_name_for dir name N ∧
      file_name_for dir name N ∉ fs ∧ gen_file_name fs dir name ∉ fs ∧
      ∀ m, 1 ≤ m → m < N → file_name_for dir name m ∈ fs := by
  obtain ⟨j, hj, hfree⟩ := exists_free_probe fs dir name
  obtain ⟨k, _, heq, hfreek, hall⟩ :=
    gen_file_name_fuel_spec fs dir name (fs.length + 1) 1 ⟨j, hj, hfree⟩
  refine ⟨1 + k, by omega, heq, hfreek, by rw [gen_file_name]; rw [heq]; exact hfreek, ?_⟩
  intro m hm1 hmk
  have : m = 1 + (m - 1) := by omega
  rw [this]
  exact hall (m - 1) (by omega)

/-! ### Query builder -/

/-- C4: for every ordered term list and every `max_results`, the Query
Builder output equals the fixed template with each term trimmed,
lowercased, quoted, percent-encoded (space as `+`) and the encoded terms
joined by a literal `+`; the empty term list yields an empty `q` value. -/
theorem c4_construct_api_query_template (app_id api_key : String)
    (query_list : List String) (max_results : Nat) :
    construct_api_query app_id api_key query_list max_results
      = query_url_spec app_id api_key query_list max_results ∧
    String.intercalate "+" (([] : List String).map clean_string) = "" := by
  constructor
  · unfold construct_api_query query_url_spec clean_string
    rw [show uri ++ "?q=" = "https://api.edamam.com/search?q=" from by decide]
  · rfl

/-! ### Association-list (Python dict) helper lemmas -/

theorem lookup_append_some {c d : List (String × String)} {k v : String}
    (h : List.lookup k c = some v) : List.lookup k (c ++ d) = some v := by
  rw [List.lookup_append, h]
  rfl

theorem lookup_append_single_ne {c : List (String × String)} {k u p : String}
    (h : k ≠ u) : List.lookup k (c ++ [(u, p)]) = List.lookup k c := by
  rw [List.lookup_append]
  have hbeq : (k == u) = false := beq_false_of_ne h
  have hone : List.lookup k [(u, p)] = none := by
    simp [List.lookup_cons, hbeq]
  rw [hone, Option.or_none]

/-! ### `_download_file` equations -/

theorem download_file_fail (http : String → Option (List Nat)) (st : DlState)
    (url name dir : String)
    (hf : http url = none ∨ http url = some []) :
    download_file http st url name dir = ⟨⟨mkdirs st.fs dir, st.downloads ++ [url]⟩, none⟩ := by
  unfold download_file
  rcases hf with h | h
  · rw [h]
  · rw [h]; simp

theorem download_file_success (http : String → Option (List Nat)) (st : DlState)
    (url : String) {d : List Nat} (name dir : String)
    (hd : http url = some d) (hne : d.length ≠ 0) :
    download_file http st url name dir =
      ⟨⟨mkdirs st.fs dir ++ [gen_file_name (mkdirs st.fs dir) dir name],
        st.downloads ++ [url]⟩, some (gen_file_name (mkdirs st.fs dir) dir name)⟩ := by
  unfold download_file
  rw [hd]
  simp [hne]

/-! ### `resolve_image` equations -/

theorem resolve_image_cached {http : String → Option (List Nat)} {st : DlState}
    {cache : List (String × String)} {img p : String}
    (h : List.lookup img cache = some p) :
    resolve_image http st cache img = ⟨p, cache, st⟩ := by
  unfold resolve_image
  rw [h]

theorem resolve_image_dl_fail {http : String → Option (List Nat)} {st : DlState}
    {cache : List (String × String)} {img : String}
    (h : List.lookup img cache = none)
    (hf : (download_file http st img "img").path = none) :
    resolve_image http st cache img
      = ⟨default_img_path, cache, (download_file http st img "img").st⟩ := by
  unfold resolve_image
  rw [h]
  simp only [hf]

theorem resolve_image_dl_success {http : String → Option (List Nat)} {st : DlState}
    {cache : List (String × String)} {img p : String}
    (h : List.lookup img cache = none)
    (hs : (download_file http st img "img").path = some p) :
    resolve_image http st cache img
      = ⟨p, cache ++ [(img, p)], (download_file http st img "img").st⟩ := by
  unfold resolve_image
  rw [h]
  simp only [hs]

theorem resolve_image_cache_mono {http : String → Option (List Nat)} {st : DlState}
    {cache : List (String × String)} {k v : String} (u : String)
    (h : List.lookup k cache = some v) :
    List.lookup k (resolve_image http st cache u).cache = some v := by
  rcases hl : List.lookup u cache with _ | p
  · rcases hp : (download_file http st u "img").path with _ | p
    · rw [resolve_image_dl_fail hl hp]; exact h
    · rw [resolve_image_dl_success hl hp]
      exact lookup_append_some h
  · rw [resolve_image_cached hl]; exact h

/-! ### Loop lemmas -/

theorem search_hits_fields (http : String → Option (List Nat)) :
    ∀ (hits : List Hit) (st : DlState) (cache : List (String × String)),
    (search_hits http st cache hits).records.map (fun r => (r.name, r.source, r.url))
      = hits.map (fun h => (h.recipe.label, h.recipe.source, h.recipe.url)) := by
  intro hits
  induction hits with
  | nil => intro st cache; rfl
  | cons hd rest ih =>
    intro st cache
    simp only [search_hits, List.map_cons, ih]

theorem search_hits_cache_mono (http : String → Option (List Nat)) :
    ∀ (hits : List Hit) (st : DlState) (cache : List (String × String)) (k v : String),
    List.lookup k cache = some v →
    List.lookup k (search_hits http st cache hits).cache = some v := by
  intro hits
  induction hits with
  | nil => intro st cache k v h; exact h
  | cons hd rest ih =>
    intro st cache k v h
    simp only [search_hits]
    exact ih _ _ k v (resolve_image_cache_mono hd.recipe.image h)

theorem download_file_st_downloads (http : String → Option (List Nat)) (st : DlState)
    (url name dir : String) :
    (download_file http st url name dir).st.downloads = st.downloads ++ [url] := by
  unfold download_file
  rcases h : http url with _ | d
  · simp only [h]
  · simp only [h]
    split <;> rfl

theorem download_file_path_shape {http : String → Option (List Nat)} {st : DlState}
    {url name dir p : String} (hp : (download_file http st url name dir).path = some p) :
    p = gen_file_name (mkdirs st.fs dir) dir name := by
  unfold download_file at hp
  rcases h : http url with _ | d
  · simp only [h] at hp
    exact Option.noConfusion hp
  · simp only [h] at hp
    by_cases hd : d.length = 0
    · simp [hd] at hp
    · simp only [hd, ne_eq, not_false_eq_true, if_true] at hp
      exact (Option.some.injEq _ _ ▸ hp).symm

theorem count_append_single_ne {l : List String} {a u : String} (h : a ≠ u) :
    List.count a (l ++ [u]) = List.count a l := by
  rw [List.count_append, List.count_singleton]
  simp [beq_false_of_ne (Ne.symm h)]

theorem count_append_single_self {l : List String} {a : String} :
    List.count a (l ++ [a]) = List.count a l + 1 := by
  rw [List.count_append, List.count_singleton_self]

theorem search_hits_count_cached (http : String → Option (List Nat)) {img v : String} :
    ∀ (hits : List Hit) (st : DlState) (cache : List (String × String)),
    List.lookup img cache = some v →
    List.count img (search_hits http st cache hits).st.downloads
      = List.count img st.downloads := by
  intro hits
  induction hits with
  | nil => intro st cache _; rfl
  | cons hd rest ih =>
    intro st cache h
    simp only [search_hits]
    rcases hl : List.lookup hd.recipe.image cache with _ | p
    · have hne : img ≠ hd.recipe.image := by
        intro he
        rw [← he, h] at hl
        cases hl
      rcases hp : (download_file http st hd.recipe.image "img").path with _ | p
      · simp only [resolve_image_dl_fail hl hp]
        rw [ih _ _ h, download_file_st_downloads]
        exact count_append_single_ne hne
      · simp only [resolve_image_dl_success hl hp]
        rw [ih _ _ (lookup_append_some h), download_file_st_downloads]
        exact count_append_single_ne hne
    · simp only [resolve_image_cached hl]
      exact ih _ _ h

theorem search_hits_cached_record {http : String → Option (List Nat)} {p : String} :
    ∀ (hits : List Hit) (st : DlState) (cache : List (String × String)) (i : Nat) (h : Hit),
    hits[i]? = some h → List.lookup h.recipe.image cache = some p →
    ∃ r, (search_hits http st cache hits).records[i]? = some r ∧ r.image = p := by
  intro hits
  induction hits with
  | nil => intro st cache i h hi _; simp at hi
  | cons hd rest ih =>
    intro st cache i h hi hc
    cases i with
    | zero =>
      simp only [List.getElem?_cons_zero, Option.some.injEq] at hi
      subst hi
      simp only [search_hits, resolve_image_cached hc, List.getElem?_cons_zero]
      exact ⟨_, rfl, rfl⟩
    | succ i' =>
      simp only [List.getElem?_cons_succ] at hi
      simp only [search_hits, List.getElem?_cons_succ]
      exact ih _ _ i' h hi (resolve_image_cache_mono hd.recipe.image hc)

theorem search_hits_count_success {http : String → Option (List Nat)} {img : String}
    {d : List Nat} (himg : http img = some d) (hne : d.length ≠ 0) :
    ∀ (hits : List Hit) (st : DlState) (cache : List (String × String)),
    List.count img (search_hits http st cache hits).st.downloads
      ≤ List.count img st.downloads + 1 := by
  intro hits
  induction hits with
  | nil => intro st cache; exact Nat.le_succ _
  | cons hd rest ih =>
    intro st cache
    simp only [search_hits]
    rcases hl : List.lookup hd.recipe.image cache with _ | p
    · by_cases he : hd.recipe.image = img
      · subst he
        have hdl := download_file_success http st hd.recipe.image "img" "download" himg hne
        have hp : (download_file http st hd.recipe.image "img").path
            = some (gen_file_name (mkdirs st.fs "download") "download" "img") := by rw [hdl]
        simp only [resolve_image_dl_success hl hp]
        have hcc : List.lookup hd.recipe.image
            (cache ++ [(hd.recipe.image, gen_file_name (mkdirs st.fs "download") "download" "img")])
            = some (gen_file_name (mkdirs st.fs "download") "download" "img") := by
          rw [List.lookup_append, hl]
          simp
        rw [search_hits_count_cached http rest _ _ hcc, download_file_st_downloads,
          count_append_single_self]
      · rcases hp : (download_file http st hd.recipe.image "img").path with _ | p
        · simp only [resolve_image_dl_fail hl hp]
          refine le_trans (ih _ _) ?_
          rw [download_file_st_downloads, count_append_single_ne (Ne.symm he)]
        · simp only [resolve_image_dl_success hl hp]
          refine le_trans (ih _ _) ?_
          rw [download_file_st_downloads, count_append_single_ne (Ne.symm he)]
    · simp only [resolve_image_cached hl]
      exact ih _ _

theorem search_hits_fail_not_cached {http : String → Option (List Nat)} {img : String}
    (hfail : http img = none ∨ http img = some []) :
    ∀ (hits : List Hit) (st : DlState) (cache : List (String × String)),
    List.lookup img cache = none →
    List.lookup img (search_hits http st cache hits).cache = none := by
  intro hits
  induction hits with
  | nil => intro st cache h; exact h
  | cons hd rest ih =>
    intro st cache h
    simp only [search_hits]
    rcases hl : List.lookup hd.recipe.image cache with _ | p
    · by_cases he : hd.recipe.image = img
      · have hfail' : http hd.recipe.image = none ∨ http hd.recipe.image = some [] := by
          rw [he]; exact hfail
        have hdl := download_file_fail http st hd.recipe.image "img" "download" hfail'
        have hp : (download_file http st hd.recipe.image "img").path = none := by rw [hdl]
        simp only [resolve_image_dl_fail hl hp]
        exact ih _ _ h
      · rcases hp : (download_file http st hd.recipe.image "img").path with _ | p
        · simp only [resolve_image_dl_fail hl hp]
          exact ih _ _ h
        · simp only [resolve_image_dl_success hl hp]
          refine ih _ _ ?_
          rw [lookup_append_single_ne (Ne.symm he)]
          exact h
    · simp only [resolve_image_cached hl]
      exact ih _ _ h

theorem search_hits_fail_default_record {http : String → Option (List Nat)} {img : String}
    (hfail : http img = none ∨ http img = some []) :
    ∀ (hits : List Hit) (st : DlState) (cache : List (String × String)) (i : Nat) (h : Hit),
    hits[i]? = some h → h.recipe.image = img → List.lookup img cache = none →
    ∃ r, (search_hits http st cache hits).records[i]? = some r ∧
      r.image = default_img_path := by
  intro hits
  induction hits with
  | nil => intro st cache i h hi _ _; simp at hi
  | cons hd rest ih =>
    intro st cache i h hi him hc
    cases i with
    | zero =>
      simp only [List.getElem?_cons_zero, Option.some.injEq] at hi
      subst hi
      have hl : List.lookup hd.recipe.image cache = none := by rw [him]; exact hc
      have hfail' : http hd.recipe.image = none ∨ http hd.recipe.image = some [] := by
        rw [him]; exact hfail
      have hdl := download_file_fail http st hd.recipe.image "img" "download" hfail'
      have hp : (download_file http st hd.recipe.image "img").path = none := by rw [hdl]
      simp only [search_hits, resolve_image_dl_fail hl hp, List.getElem?_cons_zero]
      exact ⟨_, rfl, rfl⟩
    | succ i' =>
      simp only [List.getElem?_cons_succ] at hi
      simp only [search_hits, List.getElem?_cons_succ]
      have hstep : List.lookup img (resolve_image http st cache hd.recipe.image).cache = none := by
        rcases hl : List.lookup hd.recipe.image cache with _ | p
        · by_cases he : hd.recipe.image = img
          · have hfail' : http hd.recipe.image = none ∨ http hd.recipe.image = some [] := by
              rw [he]; exact hfail
            have hdl := download_file_fail http st hd.recipe.image "img" "download" hfail'
            have hp : (download_file http st hd.recipe.image "img").path = none := by rw [hdl]
            simp only [resolve_image_dl_fail hl hp]
            exact hc
          · rcases hp : (download_file http st hd.recipe.image "img").path with _ | p
            · simp only [resolve_image_dl_fail hl hp]
              exact hc
            · simp only [resolve_image_dl_success hl hp]
              rw [lookup_append_single_ne (Ne.symm he)]
              exact hc
        · simp only [resolve_image_cached hl]
          exact hc
      exact ih _ _ i' h hi him hstep

theorem gen_file_name_fuel_shape (fs : List String) (dir name : String) :
    ∀ (fuel f_num : Nat), ∃ N, f_num ≤ N ∧
    gen_file_name_fuel fs dir name fuel f_num = file_name_for dir name N := by
  intro fuel
  induction fuel with
  | zero => intro f_num; exact ⟨f_num, le_rfl, rfl⟩
  | succ f ih =>
    intro f_num
    by_cases hmem : file_name_for dir name f_num ∈ fs
    · obtain ⟨N, hN, he⟩ := ih (f_num + 1)
      refine ⟨N, by omega, ?_⟩
      simp only [gen_file_name_fuel, if_pos hmem]
      exact he
    · exact ⟨f_num, le_rfl, by simp only [gen_file_name_fuel, if_neg hmem]⟩

theorem gen_file_name_shape (fs : List String) (dir name : String) :
    ∃ N, 1 ≤ N ∧ gen_file_name fs dir name = file_name_for dir name N :=
  gen_file_name_fuel_shape fs dir name (fs.length + 1) 1

theorem resolve_image_shape {http : String → Option (List Nat)} {st : DlState}
    {cache : List (String × String)} {img : String} (u : String)
    (hs : List.lookup img cache = none ∨
      ∃ N, 1 ≤ N ∧ List.lookup img cache = some (file_name_for "download" "img" N)) :
    List.lookup img (resolve_image http st cache u).cache = none ∨
      ∃ N, 1 ≤ N ∧ List.lookup img (resolve_image http st cache u).cache
        = some (file_name_for "download" "img" N) := by
  rcases hl : List.lookup u cache with _ | p
  · rcases hp : (download_file http st u "img").path with _ | p
    · simp only [resolve_image_dl_fail hl hp]
      exact hs
    · simp only [resolve_image_dl_success hl hp]
      have hpgen : p = gen_file_name (mkdirs st.fs "download") "download" "img" :=
        download_file_path_shape hp
      obtain ⟨N, hN, hgen⟩ := gen_file_name_shape (mkdirs st.fs "download") "download" "img"
      by_cases he : u = img
      · subst he
        right
        refine ⟨N, hN, ?_⟩
        rw [List.lookup_append, hl, Option.none_or, List.lookup_cons_self, hpgen, hgen]
      · rcases hs with hnone | ⟨M, hM, hsome⟩
        · left
          rw [lookup_append_single_ne (fun h' => he h'.symm)]
          exact hnone
        · right
          refine ⟨M, hM, ?_⟩
          rw [lookup_append_single_ne (fun h' => he h'.symm)]
          exact hsome
  · simp only [resolve_image_cached hl]
    exact hs

theorem search_hits_shape_record {http : String → Option (List Nat)} {img : String}
    {d : List Nat} (himg : http img = some d) (hne : d.length ≠ 0) :
    ∀ (hits : List Hit) (st : DlState) (cache : List (String × String)) (i : Nat) (h : Hit),
    hits[i]? = some h → h.recipe.image = img →
    (List.lookup img cache = none ∨
      ∃ N, 1 ≤ N ∧ List.lookup img cache = some (file_name_for "download" "img" N)) →
    ∃ r N, (search_hits http st cache hits).records[i]? = some r ∧ 1 ≤ N ∧
      r.image = file_name_for "download" "img" N := by
  intro hits
  induction hits with
  | nil => intro st cache i h hi _ _; simp at hi
  | cons hd rest ih =>
    intro st cache i h hi him hs
    cases i with
    | zero =>
      simp only [List.getElem?_cons_zero, Option.some.injEq] at hi
      subst hi
      rcases hs with hnone | ⟨N, hN, hsome⟩
      · have hl : List.lookup hd.recipe.image cache = none := by rw [him]; exact hnone
        have himg' : http hd.recipe.image = some d := by rw [him]; exact himg
        have hdl := download_file_success http st hd.recipe.image "img" "download" himg' hne
        have hp : (download_file http st hd.recipe.image "img").path
            = some (gen_file_name (mkdirs st.fs "download") "download" "img") := by rw [hdl]
        simp only [search_hits, resolve_image_dl_success hl hp, List.getElem?_cons_zero]
        obtain ⟨N, hN, hgen⟩ := gen_file_name_shape (mkdirs st.fs "download") "download" "img"
        exact ⟨_, N, rfl, hN, hgen⟩
      · have hl : List.lookup hd.recipe.image cache
            = some (file_name_for "download" "img" N) := by rw [him]; exact hsome
        simp only [search_hits, resolve_image_cached hl, List.getElem?_cons_zero]
        exact ⟨_, N, rfl, hN, rfl⟩
    | succ i' =>
      simp only [List.getElem?_cons_succ] at hi
      simp only [search_hits, List.getElem?_cons_succ]
      exact ih _ _ i' h hi him (resolve_image_shape hd.recipe.image hs)

/-! ### `search`: top-level unfoldings -/

theorem search_failure_eq {http : String → Option (List Nat)}
    (parse : List Nat → Option ApiResponse) (app_id api_key : String)
    (fs0 : List String) (cacheFile0 : Option (List (String × String)))
    (query_list : List String) (max_results : Nat)
    (hfail : http (construct_api_query app_id api_key query_list max_results) = none
      ∨ http (construct_api_query app_id api_key query_list max_results) = some []) :
    search http parse app_id api_key fs0 cacheFile0 query_list max_results
      = some ⟨[], fs0, cacheFile0, []⟩ := by
  unfold search
  rcases hfail with h | h
  · simp only [h]
  · simp only [h, List.length_nil]
    simp

theorem search_success_eq {http : String → Option (List Nat)}
    {parse : List Nat → Option ApiResponse} {app_id api_key : String}
    {fs0 : List String} {cacheFile0 : Option (List (String × String))}
    {query_list : List String} {max_results : Nat} {data : List Nat} {resp : ApiResponse}
    (hhttp : http (construct_api_query app_id api_key query_list max_results) = some data)
    (hne : data.length ≠ 0) (hp : parse data = some resp) :
    search http parse app_id api_key fs0 cacheFile0 query_list max_results
      = some ⟨(search_hits http ⟨fs0, []⟩ (cacheFile0.getD []) resp.hits).records,
          (search_hits http ⟨fs0, []⟩ (cacheFile0.getD []) resp.hits).st.fs,
          some (search_hits http ⟨fs0, []⟩ (cacheFile0.getD []) resp.hits).cache,
          (search_hits http ⟨fs0, []⟩ (cacheFile0.getD []) resp.hits).st.downloads⟩ := by
  unfold search
  simp only [hhttp, if_neg hne, hp]

/-! ### The claims -/

/-- C2: a transport-level failure or an absent/empty body on the search
request makes `search` return an empty sequence without raising (the
result is `some`, never the exception case `none`). -/
theorem c2_transport_failure_returns_empty (http : String → Option (List Nat))
    (parse : List Nat → Option ApiResponse) (app_id api_key : String)
    (fs0 : List String) (cacheFile0 : Option (List (String × String)))
    (query_list : List String) (max_results : Nat)
    (hfail : http (construct_api_query app_id api_key query_list max_results) = none
      ∨ http (construct_api_query app_id api_key query_list max_results) = some []) :
    ∃ out, search http parse app_id api_key fs0 cacheFile0 query_list max_results = some out
      ∧ out.records = [] :=
  ⟨_, search_failure_eq parse app_id api_key fs0 cacheFile0 query_list max_results hfail, rfl⟩

/-- C2 witness. -/
theorem c2_witness :
    ∃ out, search (fun _ => none) (parse_for []) "id" "key" ["f"] (some [("u", "p")])
      ["beef"] 5 = some out ∧ out.records = [] :=
  c2_transport_failure_returns_empty (fun _ => none) (parse_for []) "id" "key" ["f"]
    (some [("u", "p")]) ["beef"] 5 (Or.inl rfl)

/-- C7: on a failed search request the cache file is left exactly as it
was (and the filesystem and download log are untouched), for every
possible cache contents — `search` does not depend on it. -/
theorem c7_transport_failure_cache_untouched (http : String → Option (List Nat))
    (parse : List Nat → Option ApiResponse) (app_id api_key : String)
    (fs0 : List String) (cacheFile0 : Option (List (String × String)))
    (query_list : List String) (max_results : Nat)
    (hfail : http (construct_api_query app_id api_key query_list max_results) = none
      ∨ http (construct_api_query app_id api_key query_list max_results) = some []) :
    ∃ out, search http parse app_id api_key fs0 cacheFile0 query_list max_results = some out
      ∧ out.cacheFile = cacheFile0 ∧ out.fs = fs0 ∧ out.downloads = [] :=
  ⟨_, search_failure_eq parse app_id api_key fs0 cacheFile0 query_list max_results hfail,
    rfl, rfl, rfl⟩

/-- C7 witness. -/
theorem c7_witness :
    ∃ out, search (fun _ => none) (parse_for []) "id" "key" ["g"] (some [("v", "q")])
      ["pork"] 2 = some out ∧ out.cacheFile = some [("v", "q")] ∧ out.fs = ["g"]
      ∧ out.downloads = [] :=
  c7_transport_failure_cache_untouched (fun _ => none) (parse_for []) "id" "key" ["g"]
    (some [("v", "q")]) ["pork"] 2 (Or.inl rfl)

/-- C8: a successful search returns one record per hit, in the order of
the `hits` sequence, with `name`/`source`/`url` copied verbatim from the
hit's recipe (`label`, `source`, `url`). -/
theorem c8_records_match_hits_in_order (http : String → Option (List Nat))
    (parse : List Nat → Option ApiResponse) (app_id api_key : String)
    (fs0 : List String) (cacheFile0 : Option (List (String × String)))
    (query_list : List String) (max_results : Nat) (data : List Nat) (resp : ApiResponse)
    (hhttp : http (construct_api_query app_id api_key query_list max_results) = some data)
    (hne : data.length ≠ 0) (hp : parse data = some resp) :
    ∃ out, search http parse app_id api_key fs0 cacheFile0 query_list max_results = some out
      ∧ out.records.map (fun r => (r.name, r.source, r.url))
        = resp.hits.map (fun h => (h.recipe.label, h.recipe.source, h.recipe.url))
      ∧ out.records.length = resp.hits.length := by
  refine ⟨_, search_success_eq hhttp hne hp, ?_, ?_⟩
  · exact search_hits_fields http resp.hits ⟨fs0, []⟩ (cacheFile0.getD [])
  · have hlen := congrArg List.length
      (search_hits_fields http resp.hits ⟨fs0, []⟩ (cacheFile0.getD []))
    simpa using hlen

/-- C8 witness. -/
theorem c8_witness :
    ∃ out, search http_test (parse_for [hit1, hit2]) "id" "key" [] none [] 3 = some out
      ∧ out.records.map (fun r => (r.name, r.source, r.url))
        = (ApiResponse.mk [hit1, hit2]).hits.map
            (fun h => (h.recipe.label, h.recipe.source, h.recipe.url))
      ∧ out.records.length = (ApiResponse.mk [hit1, hit2]).hits.length :=
  c8_records_match_hits_in_order http_test (parse_for [hit1, hit2]) "id" "key" [] none [] 3
    [1] (ApiResponse.mk [hit1, hit2]) (by decide) (by decide) (by decide)

/-- C10: a successful search only adds cache entries: every key-value
pair of the mapping loaded at the start is still looked up unchanged in
the mapping written to `cached.json` at the end. -/
theorem c10_cache_grows_monotonically (http : String → Option (List Nat))
    (parse : List Nat → Option ApiResponse) (app_id api_key : String)
    (fs0 : List String) (cacheFile0 : Option (List (String × String)))
    (query_list : List String) (max_results : Nat) (data : List Nat) (resp : ApiResponse)
    (hhttp : http (construct_api_query app_id api_key query_list max_results) = some data)
    (hne : data.length ≠ 0) (hp : parse data = some resp) :
    ∃ out c₂, search http parse app_id api_key fs0 cacheFile0 query_list max_results
        = some out ∧ out.cacheFile = some c₂ ∧
      ∀ k v, List.lookup k (cacheFile0.getD []) = some v → List.lookup k c₂ = some v := by
  refine ⟨_, _, search_success_eq hhttp hne hp, rfl, ?_⟩
  intro k v hkv
  exact search_hits_cache_mono http resp.hits ⟨fs0, []⟩ (cacheFile0.getD []) k v hkv

/-- C10 witness. -/
theorem c10_witness :
    ∃ out c₂, search http_test (parse_for [hit1]) "id" "key" [] (some [("a", "b")]) [] 3
        = some out ∧ out.cacheFile = some c₂ ∧
      ∀ k v, List.lookup k ((some [("a", "b")] : Option (List (String × String))).getD [])
          = some v → List.lookup k c₂ = some v :=
  c10_cache_grows_monotonically http_test (parse_for [hit1]) "id" "key" []
    (some [("a", "b")]) [] 3 [1] (ApiResponse.mk [hit1]) (by decide) (by decide) (by decide)

/-- C5: a hit whose image URL is a key of the loaded cache yields the
stored local path, with no download of that URL in the whole run, and a
repeated search returns the same cached path. -/
theorem c5_cache_hit_reuses_stored_path (http : String → Option (List Nat))
    (parse : List Nat → Option ApiResponse) (app_id api_key : String)
    (fs0 : List String) (c : List (String × String))
    (query_list : List String) (max_results : Nat) (data : List Nat) (resp : ApiResponse)
    (i : Nat) (h : Hit) (p : String)
    (hhttp : http (construct_api_query app_id api_key query_list max_results) = some data)
    (hne : data.length ≠ 0) (hp : parse data = some resp)
    (hi : resp.hits[i]? = some h)
    (hc : List.lookup h.recipe.image c = some p) :
    ∃ out, search http parse app_id api_key fs0 (some c) query_list max_results = some out
      ∧ (∃ r, out.records[i]? = some r ∧ r.image = p)
      ∧ List.count h.recipe.image out.downloads = 0
      ∧ ∃ out₂, search http parse app_id api_key out.fs out.cacheFile query_list max_results
            = some out₂ ∧ ∃ r₂, out₂.records[i]? = some r₂ ∧ r₂.image = p := by
  refine ⟨_, search_success_eq hhttp hne hp, ?_, ?_, ?_⟩
  · exact search_hits_cached_record resp.hits ⟨fs0, []⟩ c i h hi hc
  · have hcnt := search_hits_count_cached http resp.hits ⟨fs0, []⟩ c hc
    simpa using hcnt
  · have hc₂ : List.lookup h.recipe.image (search_hits http ⟨fs0, []⟩ c resp.hits).cache
        = some p := search_hits_cache_mono http resp.hits ⟨fs0, []⟩ c h.recipe.image p hc
    refine ⟨_, search_success_eq hhttp hne hp, ?_⟩
    exact search_hits_cached_record resp.hits
      ⟨(search_hits http ⟨fs0, []⟩ c resp.hits).st.fs, []⟩
      (search_hits http ⟨fs0, []⟩ c resp.hits).cache i h hi hc₂

/-- C5 witness. -/
theorem c5_witness :
    ∃ out, search http_test (parse_for [hit1]) "id" "key" []
        (some [("http://x/1.jpg", "img/img_1.jpg")]) [] 3 = some out
      ∧ (∃ r, out.records[0]? = some r ∧ r.image = "img/img_1.jpg")
      ∧ List.count hit1.recipe.image out.downloads = 0
      ∧ ∃ out₂, search http_test (parse_for [hit1]) "id" "key" out.fs out.cacheFile [] 3
            = some out₂ ∧ ∃ r₂, out₂.records[0]? = some r₂ ∧ r₂.image = "img/img_1.jpg" :=
  c5_cache_hit_reuses_stored_path http_test (parse_for [hit1]) "id" "key" []
    [("http://x/1.jpg", "img/img_1.jpg")] [] 3 [1] (ApiResponse.mk [hit1]) 0 hit1
    "img/img_1.jpg" (by decide) (by decide) (by decide) (by decide) (by decide)

/-- C9: within one successful search, an image URL whose fetch succeeds
is downloaded at most once, however many hits share it. -/
theorem c9_successful_url_downloaded_at_most_once (http : String → Option (List Nat))
    (parse : List Nat → Option ApiResponse) (app_id api_key : String)
    (fs0 : List String) (cacheFile0 : Option (List (String × String)))
    (query_list : List String) (max_results : Nat) (data : List Nat) (resp : ApiResponse)
    (img : String) (d₂ : List Nat)
    (hhttp : http (construct_api_query app_id api_key query_list max_results) = some data)
    (hne : data.length ≠ 0) (hp : parse data = some resp)
    (himg : http img = some d₂) (hne₂ : d₂.length ≠ 0) :
    ∃ out, search http parse app_id api_key fs0 cacheFile0 query_list max_results = some out
      ∧ List.count img out.downloads ≤ 1 := by
  refine ⟨_, search_success_eq hhttp hne hp, ?_⟩
  have hcnt := search_hits_count_success himg hne₂ resp.hits ⟨fs0, []⟩ (cacheFile0.getD [])
  simpa using hcnt

/-- C9 witness: the same image URL appears in two hits. -/
theorem c9_witness :
    ∃ out, search http_test (parse_for [hit1, hit1]) "id" "key" [] none [] 3 = some out
      ∧ List.count "http://x/1.jpg" out.downloads ≤ 1 :=
  c9_successful_url_downloaded_at_most_once http_test (parse_for [hit1, hit1]) "id" "key"
    [] none [] 3 [1] (ApiResponse.mk [hit1, hit1]) "http://x/1.jpg" [7, 7]
    (by decide) (by decide) (by decide) (by decide) (by decide)

/-- C6: when the image download for a hit fails (absent or empty
response), the hit's record carries the fixed placeholder path
`default_img.jpg` and the cache written at the end still has no entry
for that image URL. -/
theorem c6_failed_download_placeholder_not_cached (http : String → Option (List Nat))
    (parse : List Nat → Option ApiResponse) (app_id api_key : String)
    (fs0 : List String) (cacheFile0 : Option (List (String × String)))
    (query_list : List String) (max_results : Nat) (data : List Nat) (resp : ApiResponse)
    (i : Nat) (h : Hit)
    (hhttp : http (construct_api_query app_id api_key query_list max_results) = some data)
    (hne : data.length ≠ 0) (hp : parse data = some resp)
    (hi : resp.hits[i]? = some h)
    (hfail : http h.recipe.image = none ∨ http h.recipe.image = some [])
    (hnc : List.lookup h.recipe.image (cacheFile0.getD []) = none) :
    ∃ out, search http parse app_id api_key fs0 cacheFile0 query_list max_results = some out
      ∧ (∃ r, out.records[i]? = some r ∧ r.image = default_img_path)
      ∧ ∃ c₂, out.cacheFile = some c₂ ∧ List.lookup h.recipe.image c₂ = none := by
  refine ⟨_, search_success_eq hhttp hne hp, ?_, _, rfl, ?_⟩
  · exact search_hits_fail_default_record hfail resp.hits ⟨fs0, []⟩
      (cacheFile0.getD []) i h hi rfl hnc
  · exact search_hits_fail_not_cached hfail resp.hits ⟨fs0, []⟩ (cacheFile0.getD []) hnc

/-- C6 witness: `hit2`'s image URL gets no response. -/
theorem c6_witness :
    ∃ out, search http_test (parse_for [hit2]) "id" "key" [] (some []) [] 3 = some out
      ∧ (∃ r, out.records[0]? = some r ∧ r.image = default_img_path)
      ∧ ∃ c₂, out.cacheFile = some c₂ ∧ List.lookup hit2.recipe.image c₂ = none :=
  c6_failed_download_placeholder_not_cached http_test (parse_for [hit2]) "id" "key" []
    (some []) [] 3 [1] (ApiResponse.mk [hit2]) 0 hit2
    (by decide) (by decide) (by decide) (by decide) (Or.inl (by decide)) (by decide)

/-- C1 counterexample: with an empty cache and a successful download,
the record's image path is `download/img_1.jpg` — it is saved under the
downloader's default directory `download/`, not under `img/`, so the
resolved path does not start with `img`. -/
theorem c1_counterexample :
    search http_test (parse_for [hit1]) "id" "key" [] (some []) [] 3
      = some ⟨[⟨"Apple pie", "download/img_1.jpg", "Chef", "http://r/1"⟩],
          ["download", "download/img_1.jpg"],
          some [("http://x/1.jpg", "download/img_1.jpg")],
          ["http://x/1.jpg"]⟩
    ∧ ("download/img_1.jpg" : String).data.take ("img" : String).data.length
        ≠ ("img" : String).data
    ∧ ("download/img_1.jpg" : String).data.take ("download" : String).data.length
        = ("download" : String).data := by
  refine ⟨by decide, by decide, by decide⟩

/-- C1 as amended: a hit whose image is not in the loaded cache and
whose download succeeds gets an image path of the form
`download/img_<N>.jpg` (the allocator's candidate under directory
`download`, base name `img`), for some `N ≥ 1`. -/
theorem c1_amended_download_dir (http : String → Option (List Nat))
    (parse : List Nat → Option ApiResponse) (app_id api_key : String)
    (fs0 : List String) (cacheFile0 : Option (List (String × String)))
    (query_list : List String) (max_results : Nat) (data : List Nat) (resp : ApiResponse)
    (i : Nat) (h : Hit) (d₂ : List Nat)
    (hhttp : http (construct_api_query app_id api_key query_list max_results) = some data)
    (hne : data.length ≠ 0) (hp : parse data = some resp)
    (hi : resp.hits[i]? = some h)
    (himg : http h.recipe.image = some d₂) (hne₂ : d₂.length ≠ 0)
    (hnc : List.lookup h.recipe.image (cacheFile0.getD []) = none) :
    ∃ out r N, search http parse app_id api_key fs0 cacheFile0 query_list max_results
        = some out ∧ out.records[i]? = some r ∧ 1 ≤ N ∧
      r.image = file_name_for "download" "img" N := by
  obtain ⟨r, N, hr, hN, hri⟩ := search_hits_shape_record himg hne₂ resp.hits ⟨fs0, []⟩
    (cacheFile0.getD []) i h hi rfl (Or.inl hnc)
  exact ⟨_, r, N, search_success_eq hhttp hne hp, hr, hN, hri⟩

/-- C1 amended witness. -/
theorem c1_amended_witness :
    ∃ out r N, search http_test (parse_for [hit1]) "id" "key" [] (some []) [] 3 = some out
      ∧ out.records[0]? = some r ∧ 1 ≤ N ∧ r.image = file_name_for "download" "img" N :=
  c1_amended_download_dir http_test (parse_for [hit1]) "id" "key" [] (some []) [] 3
    [1] (ApiResponse.mk [hit1]) 0 hit1 [7, 7]
    (by decide) (by decide) (by decide) (by decide) (by decide) (by decide) (by decide)
